import Mathlib

/-!
Verification development for the uPIMulator interconnect/collective layer.

Shallow embedding of:
- `collective/ring.go` (RingTopology.RingAllReduce, ApplyReduce, encodeInt64,
  decodeInt64)
- `collective/reduce_scatter.go` (ReduceScatterTopology.ReduceScatter,
  ReduceScatterSimple, AllGather)
- `device/simulator/interconnect/inter_chip_switch.go` (DQPinPartition,
  CrossbarSwitch)
- `device/simulator/interconnect/inter_rank_control.go` (InterRankControlQ)

Modelling conventions:
- Go `int64` values are Lean `Int`s; additions and multiplications that Go
  performs on `int64` are wrapped through `wrap64` (two's-complement
  wraparound).  Comparisons are exact.
- Go `int` sizes and loop counters are Lean `Nat`s where they are provably
  non-negative; API parameters whose sign matters stay `Int`.
- A Go function that can return an `error` returns `GoRes`; a Go runtime
  panic (index out of range, division by zero, explicit `panic`) is
  `GoRes.panic`.
- The mesh network (`MeshNetwork`, which lives outside the interconnect
  sources embedded here) is modelled from the spec: `InjectPacket` with valid
  coordinates succeeds, and the k-th call to `RunUntilEmpty(1000)` returns
  `drain k` for an oracle `drain : Nat → Bool` (true = the mesh drained
  within the cycle cap, false = timeout).  The injected packets carry copies
  of data that the collective code never reads back from the network, so the
  drain outcome is the only network-visible information.
-/

/-- Result of a Go function call: normal value, returned `error`, or runtime
panic. -/
inductive GoRes (α : Type) where
  | ok : α → GoRes α
  | err : String → GoRes α
  | panic : GoRes α
deriving DecidableEq, Repr

/-- Sequencing of Go computations: errors and panics propagate. -/
def gbind {α β : Type} : GoRes α → (α → GoRes β) → GoRes β
  | .ok a, f => f a
  | .err s, _ => .err s
  | .panic, _ => .panic

/-- Go slice indexing `l[i]`: panics when out of range. -/
def goIdx {α : Type} (l : List α) (i : Nat) : GoRes α :=
  if h : i < l.length then .ok (l.get ⟨i, h⟩) else .panic

/-- Two's-complement wraparound of Go `int64` arithmetic. -/
def wrap64 (x : Int) : Int :=
  (x + 2 ^ 63) % 2 ^ 64 - 2 ^ 63

/-- `ReduceOp` from collective/ring.go. -/
inductive ReduceOp where
  | SUM
  | MAX
  | MIN
  | PROD
deriving DecidableEq, Repr

/-- `ApplyReduce` from collective/ring.go.  Go's `a + b` / `a * b` on `int64`
wrap around, hence `wrap64`; the comparisons are exact.  (The Go `default`
arm is unreachable: the four constructors are exhaustive.) -/
def applyReduce : ReduceOp → Int → Int → Int
  | .SUM, a, b => wrap64 (a + b)
  | .MAX, a, b => if a > b then a else b
  | .MIN, a, b => if a < b then a else b
  | .PROD, a, b => wrap64 (a * b)

/-- `GetPrevNode` from collective/ring.go: `(nodeID - 1 + numNodes) % numNodes`.
For `0 ≤ i` and `1 ≤ N` the Go int expression equals `(i + N - 1) % N`. -/
def prevIdx (N i : Nat) : Nat :=
  (i + N - 1) % N

/-- `encodeInt64` from collective/ring.go: 8 little-endian bytes.
`byte(val >> (i*8))`: Go's arithmetic right shift on `int64` is floor
division by `2^(i*8)`, which is Lean's `Int` `/` for a positive divisor, and
the `byte` conversion keeps the low 8 bits, which is euclidean `% 256`
(hence in `[0, 256)`). -/
def encodeInt64 (val : Int) : List Nat :=
  (List.range 8).map (fun i => ((val / 2 ^ (i * 8)) % 256).toNat)

/-- Reinterpret the low 64 bits of a natural number as a signed `int64`. -/
def toInt64 (n : Nat) : Int :=
  if n % 2 ^ 64 < 2 ^ 63 then ((n % 2 ^ 64 : Nat) : Int)
  else ((n % 2 ^ 64 : Nat) : Int) - 2 ^ 64

/-- `decodeInt64` from collective/ring.go: returns 0 on short input, otherwise
ORs the 8 bytes into place.  Go accumulates with
`val |= int64(data[i]) << (i*8)` on an `int64`; since the bytes are < 256 the
accumulated bit pattern stays below `2^64`, so the embedding accumulates the
bit pattern as a `Nat` and reinterprets it as a signed value at the end
(`toInt64`), which is exactly the final `int64`. -/
def decodeInt64 (data : List Nat) : Int :=
  if data.length < 8 then 0
  else toInt64 ((List.range 8).foldl (fun acc i => acc ||| data.getD i 0 <<< (i * 8)) 0)

/-- One iteration of the phase-1 loop body of `RingAllReduce`
(collective/ring.go lines 127-131):
`nodeValues[i] = ApplyReduce(op, nodeValues[i], nodeValues[prev])`.
The Go loop mutates the array it is reading from, so updates made for smaller
node ids are visible when larger node ids are processed. -/
def p1upd (N : Nat) (op : ReduceOp) (vs : List Int) (i : Nat) : List Int :=
  vs.set i (applyReduce op (vs.getD i 0) (vs.getD (prevIdx N i) 0))

/-- The phase-1 loop of `RingAllReduce` run for node ids `0, …, j-1`. -/
def p1Fold (N : Nat) (op : ReduceOp) (v : List Int) (j : Nat) : List Int :=
  (List.range j).foldl (p1upd N op) v

/-- One full phase-1 step of `RingAllReduce`: the in-place reduce loop over
all node ids `0, …, N-1`. -/
def phase1Step (N : Nat) (op : ReduceOp) (v : List Int) : List Int :=
  p1Fold N op v N

/-- One iteration of the phase-2 (all-gather) loop body of `RingAllReduce`
(collective/ring.go lines 156-163): take the previous node's value when
`step == 0` or the two values already agree; also an in-place loop. -/
def p2upd (N step : Nat) (vs : List Int) (i : Nat) : List Int :=
  if step = 0 ∨ vs.getD i 0 = vs.getD (prevIdx N i) 0 then
    vs.set i (vs.getD (prevIdx N i) 0)
  else vs

/-- One full phase-2 step of `RingAllReduce` (in-place loop over all node
ids). -/
def phase2Step (N step : Nat) (v : List Int) : List Int :=
  (List.range N).foldl (p2upd N step) v

/-- Phase 1 of `RingAllReduce`: `k` remaining steps, `step` the 0-based Go
loop counter.  In phase 1 the `RunUntilEmpty` call counter coincides with
`step`, so `drain step` is the outcome of this step's drain. -/
def phase1 (N : Nat) (op : ReduceOp) (drain : Nat → Bool) :
    Nat → Nat → List Int → GoRes (List Int)
  | 0, _, v => .ok v
  | k + 1, step, v =>
    if drain step then phase1 N op drain k (step + 1) (phase1Step N op v)
    else .err ("network timeout at step " ++ toString step)

/-- Phase 2 of `RingAllReduce`: `k` remaining steps, `step` the 0-based loop
counter, `c` the index into the drain oracle (phase 2's drains follow phase
1's `N-1` drains). -/
def phase2 (N : Nat) (drain : Nat → Bool) :
    Nat → Nat → Nat → List Int → GoRes (List Int)
  | 0, _, _, v => .ok v
  | k + 1, step, c, v =>
    if drain c then phase2 N drain k (step + 1) (c + 1) (phase2Step N step v)
    else .err ("network timeout in allgather step " ++ toString step)

/-- `RingTopology.RingAllReduce` from collective/ring.go.  The `nodeValues`
slice is the `List Int`; the returned value is that slice after both phases.
The encode/`SendToNext` traffic only ships copies of values that are never
read back from the network, so its only observable effect is through the
drain oracle. -/
def ringAllReduce (N : Nat) (drain : Nat → Bool) (initialValues : List Int)
    (op : ReduceOp) : GoRes (List Int) :=
  if initialValues.length ≠ N then
    .err ("initialValues length " ++ toString initialValues.length ++
      " != numNodes " ++ toString N)
  else
    gbind (phase1 N op drain (N - 1) 0 initialValues) fun v1 =>
      gbind (phase2 N drain (N - 1) 0 (N - 1) v1) fun v2 =>
        .ok v2

/-- One reduce round of `ReduceScatterTopology.ReduceScatter`
(collective/reduce_scatter.go lines 100-112): a fresh `newData` is built, so
unlike `RingAllReduce` this loop reads only the previous round's data.
Validation has already ensured every row has length `chunkSize`, so the
`getD` defaults are never used. -/
def rsStep (N : Nat) (op : ReduceOp) (chunkSize : Nat) (data : List (List Int)) :
    List (List Int) :=
  (List.range N).map fun i =>
    (List.range chunkSize).map fun k =>
      applyReduce op ((data.getD i []).getD k 0) ((data.getD (prevIdx N i) []).getD k 0)

/-- The row-length validation loop of `ReduceScatter` (lines 58-63): checks
rows `1, …, N-1` against `chunkSize`, returning the first error. -/
def rsCheck (chunkSize : Nat) (data : List (List Int)) : Nat → Nat → Option String
  | 0, _ => none
  | k + 1, i =>
    if (data.getD i []).length ≠ chunkSize then
      some ("node " ++ toString i ++ " has " ++ toString (data.getD i []).length ++
        " values, expected " ++ toString chunkSize)
    else rsCheck chunkSize data k (i + 1)

/-- The main loop of `ReduceScatter`: `k` remaining rounds, `step` the Go loop
counter (also the drain-oracle index: `ReduceScatter` makes one
`RunUntilEmpty` call per round). -/
def rsLoop (N : Nat) (op : ReduceOp) (chunkSize : Nat) (drain : Nat → Bool) :
    Nat → Nat → List (List Int) → GoRes (List (List Int))
  | 0, _, data => .ok data
  | k + 1, step, data =>
    if drain step then rsLoop N op chunkSize drain k (step + 1) (rsStep N op chunkSize data)
    else .err ("network timeout at step " ++ toString step)

/-- The extraction loop of `ReduceScatter` (lines 117-119):
`result[nodeID] = initialData[nodeID][nodeID]`, a Go index expression that
panics when out of range. -/
def rsExtract (data : List (List Int)) : List Nat → GoRes (List Int)
  | [] => .ok []
  | i :: rest =>
    gbind (goIdx data i) fun row =>
      gbind (goIdx row i) fun x =>
        gbind (rsExtract data rest) fun xs =>
          .ok (x :: xs)

/-- `ReduceScatterTopology.ReduceScatter` from collective/reduce_scatter.go. -/
def reduceScatter (N : Nat) (drain : Nat → Bool) (initialData : List (List Int))
    (op : ReduceOp) : GoRes (List Int) :=
  if initialData.length ≠ N then
    .err ("initialData length " ++ toString initialData.length ++
      " != numNodes " ++ toString N)
  else
    gbind (goIdx initialData 0) fun row0 =>
      match rsCheck row0.length initialData (N - 1) 1 with
      | some msg => .err msg
      | none =>
        gbind (rsLoop N op row0.length drain (N - 1) 0 initialData) fun finalData =>
          rsExtract finalData (List.range N)

/-- The SUM branch of `ReduceScatterSimple`'s per-chunk reduction:
`reducedValue += initialData[nodeID][chunkIdx]` over all rows, with `int64`
wraparound and panicking indexing. -/
def goSumCol (chunkIdx : Nat) : List (List Int) → Int → GoRes Int
  | [], acc => .ok acc
  | row :: rest, acc =>
    gbind (goIdx row chunkIdx) fun x => goSumCol chunkIdx rest (wrap64 (acc + x))

/-- The non-SUM branch of `ReduceScatterSimple`'s per-chunk reduction:
fold `ApplyReduce` over the remaining rows. -/
def goRedCol (op : ReduceOp) (chunkIdx : Nat) : List (List Int) → Int → GoRes Int
  | [], acc => .ok acc
  | row :: rest, acc =>
    gbind (goIdx row chunkIdx) fun x => goRedCol op chunkIdx rest (applyReduce op acc x)

/-- The per-chunk loop of `ReduceScatterSimple` (lines 142-161): compute the
column reduction, and store it into `result[chunkIdx]` only when
`chunkIdx < N`. -/
def rssLoop (N : Nat) (op : ReduceOp) (data : List (List Int)) :
    List Nat → List Int → GoRes (List Int)
  | [], result => .ok result
  | cIdx :: rest, result =>
    gbind
      (if op = .SUM then goSumCol cIdx data 0
       else
         gbind (goIdx data 0) fun row0 =>
           gbind (goIdx row0 cIdx) fun first =>
             goRedCol op cIdx (data.drop 1) first) fun reduced =>
      rssLoop N op data rest (if cIdx < N then result.set cIdx reduced else result)

/-- `ReduceScatterTopology.ReduceScatterSimple` from
collective/reduce_scatter.go (lines 128-180).  The trailing communication
loop calls `RunUntilEmpty` once per round and DISCARDS the result (the drain
oracle is consulted but never checked), so it does not affect the returned
value. -/
def reduceScatterSimple (N : Nat) (drain : Nat → Bool)
    (initialData : List (List Int)) (op : ReduceOp) : GoRes (List Int) :=
  if initialData.length ≠ N then .err "wrong data size"
  else
    gbind (goIdx initialData 0) fun row0 =>
      rssLoop N op initialData (List.range row0.length) (List.replicate N 0)

/-- `ReduceScatterTopology.AllGather` from collective/reduce_scatter.go
(lines 184-225).  The result matrix gives every node all `N` input values
(`result[i][j] = initialValues[j]`, in range because the length was checked).
Like `ReduceScatterSimple`, the communication loop calls `RunUntilEmpty`
once per round and DISCARDS the result, so the drain oracle never affects
the returned value. -/
def allGather (N : Nat) (drain : Nat → Bool) (initialValues : List Int) :
    GoRes (List (List Int)) :=
  if initialValues.length ≠ N then .err "wrong number of values"
  else
    .ok ((List.range N).map fun _ => (List.range N).map fun j => initialValues.getD j 0)

/-- `CrossbarSwitch` from inter_chip_switch.go.  `connections[in] = out` or
`-1`; `reverseConnections[out] = in` or `-1`. -/
structure CrossbarSwitch where
  numInputs : Int
  numOutputs : Int
  connections : List Int
  reverseConnections : List Int
  totalSwitches : Int
  blockedAttempts : Int
  cycles : Int
deriving DecidableEq, Repr

/-- `CrossbarSwitch.Init` from inter_chip_switch.go (lines 73-89): all
entries start at `-1`.  (A negative size would panic in Go's `make`; the
embedding is used with non-negative sizes only.) -/
def crossbarInit (numInputs numOutputs : Int) : CrossbarSwitch :=
  { numInputs := numInputs
    numOutputs := numOutputs
    connections := List.replicate numInputs.toNat (-1)
    reverseConnections := List.replicate numOutputs.toNat (-1)
    totalSwitches := 0
    blockedAttempts := 0
    cycles := 0 }

/-- `CrossbarSwitch.Connect` from inter_chip_switch.go (lines 93-119),
returning the Go boolean and the post state.  After the bounds checks the
slice indices are in range whenever the state is well-formed, so the `getD`
defaults are never used there. -/
def connect (cs : CrossbarSwitch) (inputID outputID : Int) : Bool × CrossbarSwitch :=
  if inputID < 0 ∨ cs.numInputs ≤ inputID then (false, cs)
  else if outputID < 0 ∨ cs.numOutputs ≤ outputID then (false, cs)
  else if cs.reverseConnections.getD outputID.toNat (-1) ≠ -1 then
    (false, { cs with blockedAttempts := cs.blockedAttempts + 1 })
  else
    let cs1 :=
      if cs.connections.getD inputID.toNat (-1) ≠ -1 then
        { cs with reverseConnections :=
            cs.reverseConnections.set (cs.connections.getD inputID.toNat (-1)).toNat (-1) }
      else cs
    (true,
      { cs1 with
        connections := cs1.connections.set inputID.toNat outputID
        reverseConnections := cs1.reverseConnections.set outputID.toNat inputID
        totalSwitches := cs1.totalSwitches + 1 })

/-- Well-formedness of a crossbar state, established by `crossbarInit` and
preserved by every operation: the two arrays have the declared sizes and
every non-`-1` entry is an index of the opposite side. -/
def CrossbarWF (cs : CrossbarSwitch) : Prop :=
  0 ≤ cs.numInputs ∧ 0 ≤ cs.numOutputs ∧
  cs.connections.length = cs.numInputs.toNat ∧
  cs.reverseConnections.length = cs.numOutputs.toNat ∧
  (∀ x ∈ cs.connections, x = -1 ∨ (0 ≤ x ∧ x < cs.numOutputs)) ∧
  (∀ x ∈ cs.reverseConnections, x = -1 ∨ (0 ≤ x ∧ x < cs.numInputs))

instance (cs : CrossbarSwitch) : Decidable (CrossbarWF cs) := by
  unfold CrossbarWF
  infer_instance

/-- `InterRankMessage` from inter_rank_control.go.  `data` is the byte
payload (each entry < 256 in Go; only its length matters to the queue). -/
structure InterRankMessage where
  sourceRank : Int
  destinationRank : Int
  data : List Nat
  timestamp : Int
  messageID : Int
deriving DecidableEq, Repr

/-- `InterRankControlQ` from inter_rank_control.go.  The Go
`pendingMessages` map keyed by the string `"ch-rank"` is modelled as the
function `pending`: key `(ch, r)` holds `pending ch r` (absent keys are the
empty list, matching Go's append-on-nil). -/
structure InterRankControlQ where
  numChannels : Int
  numRanks : Int
  busWidth : Int
  bandwidth : Int
  bufferSize : Nat
  messageQueue : List InterRankMessage
  pending : Int → Int → List InterRankMessage
  totalMessages : Int
  totalBroadcasts : Int
  totalBytesTransferred : Int
  cycles : Int
  messageIDCounter : Int

/-- `validateRankCoordinates` from inter_rank_control.go (lines 259-267). -/
def validateRankCoordinates (q : InterRankControlQ) (channelID rankID : Int) :
    Option String :=
  if channelID < 0 ∨ q.numChannels ≤ channelID then
    some ("invalid channel ID: " ++ toString channelID)
  else if rankID < 0 ∨ q.numRanks ≤ rankID then
    some ("invalid rank ID: " ++ toString rankID)
  else none

/-- `InterRankControlQ.Broadcast` from inter_rank_control.go (lines 71-99). -/
def irqBroadcast (q : InterRankControlQ) (channelID sourceRank : Int)
    (data : List Nat) : GoRes InterRankControlQ :=
  match validateRankCoordinates q channelID sourceRank with
  | some e => .err e
  | none =>
    if q.bufferSize ≤ q.messageQueue.length then .err "message queue is full"
    else
      .ok
        { q with
          messageQueue := q.messageQueue ++
            [{ sourceRank := sourceRank
               destinationRank := -1
               data := data
               timestamp := q.cycles
               messageID := q.messageIDCounter }]
          messageIDCounter := q.messageIDCounter + 1
          totalMessages := q.totalMessages + 1
          totalBroadcasts := q.totalBroadcasts + 1
          totalBytesTransferred := q.totalBytesTransferred + data.length }

/-- Delivery of one message inside `InterRankControlQ.Cycle` (lines 150-167):
a broadcast (`DestinationRank = -1`) is appended to every `(ch, rank)` bucket
with `rank ≠ SourceRank` across ALL channels; a point-to-point message is
appended to `(ch, DestinationRank)` for every channel. -/
def deliverMsg (q : InterRankControlQ) (msg : InterRankMessage) : InterRankControlQ :=
  if msg.destinationRank = -1 then
    { q with pending := fun ch r =>
        if 0 ≤ ch ∧ ch < q.numChannels ∧ 0 ≤ r ∧ r < q.numRanks ∧ r ≠ msg.sourceRank
        then q.pending ch r ++ [msg] else q.pending ch r }
  else
    { q with pending := fun ch r =>
        if 0 ≤ ch ∧ ch < q.numChannels ∧ r = msg.destinationRank
        then q.pending ch r ++ [msg] else q.pending ch r }

/-- The drain loop of `InterRankControlQ.Cycle` (lines 144-174): walk the
FIFO while `bytesProcessed < bandwidth`; deliver a message when
`bytesProcessed + size ≤ bandwidth`, otherwise break.  Returns the updated
state and the number of messages processed. -/
def cycleLoop : InterRankControlQ → List InterRankMessage → Int → InterRankControlQ × Nat
  | q, [], _ => (q, 0)
  | q, msg :: rest, bp =>
    if bp < q.bandwidth then
      if bp + (msg.data.length : Int) ≤ q.bandwidth then
        let res := cycleLoop (deliverMsg q msg) rest (bp + (msg.data.length : Int))
        (res.1, res.2 + 1)
      else (q, 0)
    else (q, 0)

/-- `InterRankControlQ.Cycle` from inter_rank_control.go (lines 134-180). -/
def irqCycle (q : InterRankControlQ) : InterRankControlQ :=
  let q1 := { q with cycles := q.cycles + 1 }
  let res := cycleLoop q1 q1.messageQueue 0
  { res.1 with messageQueue := q1.messageQueue.drop res.2 }

/-- `InterRankControlQ.GetPendingCount` from inter_rank_control.go
(lines 235-245). -/
def getPendingCount (q : InterRankControlQ) (channelID rank : Int) : GoRes Nat :=
  match validateRankCoordinates q channelID rank with
  | some e => .err e
  | none => .ok (q.pending channelID rank).length

/-- The number of messages one `Cycle` drains, phrased as in the (amended)
spec: walk the FIFO greedily from the head; a message is delivered when some
budget is still available (`bp < bw`) and it fits entirely
(`bp + size ≤ bw`); stop at the first message for which this fails. -/
def drainCount (bw : Int) : Int → List InterRankMessage → Nat
  | _, [] => 0
  | bp, m :: rest =>
    if bp < bw ∧ bp + (m.data.length : Int) ≤ bw then
      drainCount bw (bp + (m.data.length : Int)) rest + 1
    else 0

/-! ## Helper lemmas -/

theorem getD_set_ite {α : Type} (l : List α) (i j : Nat) (a d : α) :
    (l.set i a).getD j d = if i = j ∧ i < l.length then a else l.getD j d := by
  rcases eq_or_ne i j with rfl | hne
  · by_cases h : i < l.length
    · simp [List.getD_eq_getElem?_getD, List.getElem?_set, h]
    · simp [List.getD_eq_getElem?_getD, List.getElem?_set, h,
        List.set_eq_of_length_le (le_of_not_lt h)]
  · simp [List.getD_eq_getElem?_getD, List.getElem?_set, hne]

theorem goIdx_ok {α : Type} (l : List α) (i : Nat) (h : i < l.length) :
    goIdx l i = .ok (l.get ⟨i, h⟩) := dif_pos h

theorem goIdx_oob {α : Type} (l : List α) (i : Nat) (h : l.length ≤ i) :
    goIdx l i = .panic := dif_neg (not_lt.mpr h)

theorem goIdx_ok_or_panic {α : Type} (l : List α) (i : Nat) :
    (∃ h : i < l.length, goIdx l i = .ok (l.get ⟨i, h⟩)) ∨ goIdx l i = .panic := by
  by_cases h : i < l.length
  · exact Or.inl ⟨h, dif_pos h⟩
  · exact Or.inr (dif_neg h)

theorem getD_mem {α : Type} (l : List α) (i : Nat) (d : α) (h : i < l.length) :
    l.getD i d ∈ l := by
  rw [List.getD_eq_getElem l d h]
  exact List.getElem_mem h

/-! ## C1 -/

/-- C1: the spec says a ring all-reduce with op = SUM returns the sum of all
inputs (mod 2^64) in every position.  On the inputs `[1, 1]` (N = 2, no
timeouts) the implementation returns `[3, 3]`, not `[2, 2]`: the phase-1 loop
reduces in place, so node 1 reads node 0's already-updated value.  This
theorem evaluates the embedded implementation at that failing input. -/
theorem C1_ring_allreduce_sum_failing_input :
    ringAllReduce 2 (fun _ => true) [1, 1] .SUM = .ok [3, 3] := by rfl

/-! ## C2 -/

/-- C2: the spec says reduce-scatter returns, at entry i, the reduction down
column i of the N×K input.  On the 4-node SUM example worked out in the
source's own comment (which promises `[25, 38, 51, 64]`), the implementation
returns `[53, 98, 117, 88]`: each round reduces row i with row i-1 of the
PREVIOUS round, double-counting intermediate rows.  This theorem evaluates
the embedded implementation at that failing input. -/
theorem C2_reduce_scatter_sum_failing_input :
    reduceScatter 4 (fun _ => true)
      [[10, 20, 30, 40], [1, 2, 3, 4], [5, 6, 7, 8], [9, 10, 11, 12]] .SUM =
      .ok [53, 98, 117, 88] := by rfl

/-! ## C4 -/

/-- C5 counterexample: with a drain oracle that times out on every step,
`AllGather` still returns its full result instead of a network-timeout
error — its communication loop discards the `RunUntilEmpty` return value. -/
theorem C5_counterexample :
    allGather 2 (fun _ => false) [5, 7] = .ok [[5, 7], [5, 7]] := by rfl

/-! ## C3 -/

/-- C3 counterexample: connect input 0 to output 0 on a fresh 1×1 crossbar,
then call `Connect(0, 0)` again.  Output 0 is occupied by input 0 itself —
not by a "different input" — yet the second call returns false and counts a
blocked attempt, contradicting the claim that false is returned exactly when
the output is occupied by a different input. -/
theorem C3_counterexample :
    (connect (connect (crossbarInit 1 1) 0 0).2 0 0).1 = false ∧
    (connect (crossbarInit 1 1) 0 0).2.reverseConnections.getD 0 (-1) = 0 ∧
    (connect (connect (crossbarInit 1 1) 0 0).2 0 0).2.blockedAttempts = 1 := by
  exact ⟨rfl, rfl, rfl⟩

/-- C3 (amended): for a well-formed state and in-range ids, `Connect`
returns false exactly when the output is already occupied by ANY input
(including the connecting input itself), in which case only the blocked
counter changes; when the output is free it tears down the input's previous
connection (if any, and distinct from the requested output), establishes
`in → out`, and returns true. -/
theorem C3_connect_amended (cs : CrossbarSwitch) (inputID outputID : Int)
    (hwf : CrossbarWF cs)
    (hin0 : 0 ≤ inputID) (hin1 : inputID < cs.numInputs)
    (hout0 : 0 ≤ outputID) (hout1 : outputID < cs.numOutputs) :
    ((connect cs inputID outputID).1 = false ↔
      cs.reverseConnections.getD outputID.toNat (-1) ≠ -1) ∧
    (cs.reverseConnections.getD outputID.toNat (-1) ≠ -1 →
      (connect cs inputID outputID).2 =
        { cs with blockedAttempts := cs.blockedAttempts + 1 }) ∧
    (cs.reverseConnections.getD outputID.toNat (-1) = -1 →
      (connect cs inputID outputID).1 = true ∧
      (connect cs inputID outputID).2.connections.getD inputID.toNat (-1) = outputID ∧
      (connect cs inputID outputID).2.reverseConnections.getD outputID.toNat (-1) = inputID ∧
      (∀ p : Int, cs.connections.getD inputID.toNat (-1) = p → p ≠ -1 → p ≠ outputID →
        (connect cs inputID outputID).2.reverseConnections.getD p.toNat (-1) = -1)) := by
  obtain ⟨hni, hno, hlc, hlr, hvc, hvr⟩ := hwf
  have hin : inputID.toNat < cs.connections.length := by omega
  have hout : outputID.toNat < cs.reverseConnections.length := by omega
  unfold connect
  rw [if_neg (by omega), if_neg (by omega)]
  by_cases hocc : cs.reverseConnections.getD outputID.toNat (-1) ≠ -1
  · rw [if_pos hocc]
    refine ⟨by simpa using hocc, fun _ => rfl, fun h => absurd h hocc⟩
  · rw [if_neg hocc]
    push_neg at hocc
    refine ⟨by simpa using hocc, fun h => absurd hocc h, fun _ => ?_⟩
    by_cases hconn : cs.connections.getD inputID.toNat (-1) ≠ -1
    · rw [if_pos hconn]
      have hp := getD_mem cs.connections inputID.toNat (-1) hin
      have hpb := hvc _ hp
      have hplt : (cs.connections.getD inputID.toNat (-1)).toNat <
          cs.reverseConnections.length := by omega
      refine ⟨rfl, ?_, ?_, ?_⟩
      · show (cs.connections.set inputID.toNat outputID).getD inputID.toNat (-1) = outputID
        rw [getD_set_ite]
        simp [hin]
      · show (((cs.reverseConnections.set
            (cs.connections.getD inputID.toNat (-1)).toNat (-1)).set
            outputID.toNat inputID)).getD outputID.toNat (-1) = inputID
        rw [getD_set_ite]
        simp [List.length_set, hout]
      · intro p hpe hp1 hp2
        show (((cs.reverseConnections.set
            (cs.connections.getD inputID.toNat (-1)).toNat (-1)).set
            outputID.toNat inputID)).getD p.toNat (-1) = -1
        rw [getD_set_ite, if_neg, hpe, getD_set_ite, if_pos]
        · subst hpe
          exact ⟨rfl, hplt⟩
        · subst hpe
          rw [List.length_set]
          intro ⟨he, _⟩
          apply hp2
          omega
    · rw [if_neg hconn]
      push_neg at hconn
      refine ⟨rfl, ?_, ?_, ?_⟩
      · show (cs.connections.set inputID.toNat outputID).getD inputID.toNat (-1) = outputID
        rw [getD_set_ite]
        simp [hin]
      · show ((cs.reverseConnections.set outputID.toNat inputID)).getD outputID.toNat (-1)
            = inputID
        rw [getD_set_ite]
        simp [hout]
      · intro p hpe hp1 _
        exact absurd (hconn.symm.trans hpe).symm hp1

/-- C3 witness: the amended theorem applied to a fresh 2×2 crossbar with the
in-range pair (0, 1); output 1 is free, so the connection is established. -/
theorem C3_connect_amended_witness :
    (connect (crossbarInit 2 2) 0 1).1 = true ∧
    (connect (crossbarInit 2 2) 0 1).2.connections.getD 0 (-1) = 1 := by
  have h := C3_connect_amended (crossbarInit 2 2) 0 1 (by decide)
    (by decide) (by decide) (by decide) (by decide)
  have h2 := h.2.2 (by decide)
  exact ⟨h2.1, by simpa using h2.2.1⟩

/-! ## Reduce-scatter loop lemmas (shared by C5 and C10) -/

theorem rsCheck_none (chunkSize : Nat) (data : List (List Int)) :
    ∀ k i0, (∀ j, i0 ≤ j → j < i0 + k → (data.getD j []).length = chunkSize) →
      rsCheck chunkSize data k i0 = none := by
  intro k
  induction k with
  | zero => intro i0 _; rfl
  | succ k ih =>
    intro i0 h
    unfold rsCheck
    rw [if_neg (by simpa using h i0 (le_refl _) (by omega))]
    exact ih (i0 + 1) (fun j hj1 hj2 => h j (by omega) (by omega))

theorem rsLoop_ok (N : Nat) (op : ReduceOp) (K : Nat) :
    ∀ k s data, data.length = N → (∀ row ∈ data, row.length = K) →
      ∃ final, rsLoop N op K (fun _ => true) k s data = .ok final ∧
        final.length = N ∧ ∀ row ∈ final, row.length = K := by
  intro k
  induction k with
  | zero => intro s data h1 h2; exact ⟨data, rfl, h1, h2⟩
  | succ k ih =>
    intro s data h1 h2
    have hstep1 : (rsStep N op K data).length = N := by simp [rsStep]
    have hstep2 : ∀ row ∈ rsStep N op K data, row.length = K := by
      intro row hrow
      simp only [rsStep, List.mem_map] at hrow
      obtain ⟨i, _, rfl⟩ := hrow
      simp
    obtain ⟨final, hf, hfl, hfr⟩ := ih (s + 1) (rsStep N op K data) hstep1 hstep2
    exact ⟨final, by simpa [rsLoop] using hf, hfl, hfr⟩

theorem rsExtract_panic (data : List (List Int)) :
    ∀ l : List Nat, (∃ i ∈ l, i < data.length ∧ (data.getD i []).length ≤ i) →
      rsExtract data l = .panic := by
  intro l
  induction l with
  | nil => rintro ⟨i, hi, _⟩; simp at hi
  | cons a rest ih =>
    rintro ⟨i, hi, hlt, hle⟩
    rcases List.mem_cons.mp hi with rfl | hmem
    · unfold rsExtract
      rw [goIdx_ok data i hlt]
      simp only [gbind]
      have hrow : (data.get ⟨i, hlt⟩).length ≤ i := by
        rwa [List.getD_eq_getElem data [] hlt] at hle
      rw [goIdx_oob _ _ hrow]
    · unfold rsExtract
      rcases goIdx_ok_or_panic data a with ⟨h, heq⟩ | heq
      · rw [heq]
        simp only [gbind]
        rcases goIdx_ok_or_panic (data.get ⟨a, h⟩) a with ⟨h2, heq2⟩ | heq2
        · rw [heq2]
          simp only [gbind]
          rw [ih ⟨i, hmem, hlt, hle⟩]
        · rw [heq2]
      · rw [heq]
        rfl

/-! ## C5 -/

theorem phase1_ok_upto (N : Nat) (op : ReduceOp) (drain : Nat → Bool) :
    ∀ k s v, (∀ j, j < k → drain (s + j) = true) →
      phase1 N op drain k s v = .ok ((phase1Step N op)^[k] v) := by
  intro k
  induction k with
  | zero => intro s v _; rfl
  | succ k ih =>
    intro s v h
    have h0 : drain s = true := by simpa using h 0 (by omega)
    simp only [phase1, h0, if_true]
    rw [ih (s + 1) _ (fun j hj => by
      rw [show s + 1 + j = s + (j + 1) from by omega]
      exact h (j + 1) (by omega))]
    rw [Function.iterate_succ_apply]

theorem phase1_first_fail (N : Nat) (op : ReduceOp) (drain : Nat → Bool) :
    ∀ t k s v, t < k → drain (s + t) = false → (∀ j, j < t → drain (s + j) = true) →
      phase1 N op drain k s v = .err ("network timeout at step " ++ toString (s + t)) := by
  intro t
  induction t with
  | zero =>
    intro k s v htk hf _
    obtain ⟨k', rfl⟩ : ∃ k', k = k' + 1 := ⟨k - 1, by omega⟩
    have hf' : drain s = false := by simpa using hf
    simp only [phase1, hf', Bool.false_eq_true, if_false, Nat.add_zero]
  | succ t ih =>
    intro k s v htk hf hp
    obtain ⟨k', rfl⟩ : ∃ k', k = k' + 1 := ⟨k - 1, by omega⟩
    have h0 : drain s = true := by simpa using hp 0 (by omega)
    simp only [phase1, h0, if_true]
    rw [ih k' (s + 1) _ (by omega)
      (by rw [show s + 1 + t = s + (t + 1) from by omega]; exact hf)
      (fun j hj => by
        rw [show s + 1 + j = s + (j + 1) from by omega]
        exact hp (j + 1) (by omega))]
    rw [show s + 1 + t = s + (t + 1) from by omega]

theorem phase2_first_fail (N : Nat) (drain : Nat → Bool) :
    ∀ t k step c v, t < k → drain (c + t) = false →
      (∀ j, j < t → drain (c + j) = true) →
      phase2 N drain k step c v =
        .err ("network timeout in allgather step " ++ toString (step + t)) := by
  intro t
  induction t with
  | zero =>
    intro k step c v htk hf _
    obtain ⟨k', rfl⟩ : ∃ k', k = k' + 1 := ⟨k - 1, by omega⟩
    have hf' : drain c = false := by simpa using hf
    simp only [phase2, hf', Bool.false_eq_true, if_false, Nat.add_zero]
  | succ t ih =>
    intro k step c v htk hf hp
    obtain ⟨k', rfl⟩ : ∃ k', k = k' + 1 := ⟨k - 1, by omega⟩
    have h0 : drain c = true := by simpa using hp 0 (by omega)
    simp only [phase2, h0, if_true]
    rw [ih k' (step + 1) (c + 1) _ (by omega)
      (by rw [show c + 1 + t = c + (t + 1) from by omega]; exact hf)
      (fun j hj => by
        rw [show c + 1 + j = c + (j + 1) from by omega]
        exact hp (j + 1) (by omega))]
    rw [show step + 1 + t = step + (t + 1) from by omega]

theorem rsLoop_first_fail (N : Nat) (op : ReduceOp) (cs : Nat) (drain : Nat → Bool) :
    ∀ t k s data, t < k → drain (s + t) = false →
      (∀ j, j < t → drain (s + j) = true) →
      rsLoop N op cs drain k s data =
        .err ("network timeout at step " ++ toString (s + t)) := by
  intro t
  induction t with
  | zero =>
    intro k s data htk hf _
    obtain ⟨k', rfl⟩ : ∃ k', k = k' + 1 := ⟨k - 1, by omega⟩
    have hf' : drain s = false := by simpa using hf
    simp only [rsLoop, hf', Bool.false_eq_true, if_false, Nat.add_zero]
  | succ t ih =>
    intro k s data htk hf hp
    obtain ⟨k', rfl⟩ : ∃ k', k = k' + 1 := ⟨k - 1, by omega⟩
    have h0 : drain s = true := by simpa using hp 0 (by omega)
    simp only [rsLoop, h0, if_true]
    rw [ih k' (s + 1) _ (by omega)
      (by rw [show s + 1 + t = s + (t + 1) from by omega]; exact hf)
      (fun j hj => by
        rw [show s + 1 + j = s + (j + 1) from by omega]
        exact hp (j + 1) (by omega))]
    rw [show s + 1 + t = s + (t + 1) from by omega]

/-- C5 (amended): only `RingAllReduce` and the full `ReduceScatter` check the
drain outcome: whenever the first drain failure occurs at any step of their
schedules (all earlier drains having succeeded), they abort with the
corresponding network-timeout error — in `RingAllReduce`'s reduce-scatter
phase (calls `0 … N-2`) or all-gather phase (calls `N-1 … 2(N-1)-1`), and in
`ReduceScatter`'s rounds (calls `0 … N-2`).  `ReduceScatterSimple` and
`AllGather` call `RunUntilEmpty` but discard its result, so their return
value is completely independent of the drain oracle (in particular they
return results even when steps time out). -/
theorem C5_timeout_amended :
    (∀ (N : Nat) (vs : List Int) (op : ReduceOp) (drain : Nat → Bool) (t : Nat),
      2 ≤ N → vs.length = N →
      (∀ s, s < t → drain s = true) → drain t = false →
      (t < N - 1 →
        ringAllReduce N drain vs op =
          .err ("network timeout at step " ++ toString t)) ∧
      (N - 1 ≤ t → t < 2 * (N - 1) →
        ringAllReduce N drain vs op =
          .err ("network timeout in allgather step " ++ toString (t - (N - 1))))) ∧
    (∀ (N : Nat) (dat : List (List Int)) (op : ReduceOp) (K : Nat)
        (drain : Nat → Bool) (t : Nat),
      2 ≤ N → dat.length = N → (∀ row ∈ dat, row.length = K) →
      (∀ s, s < t → drain s = true) → drain t = false → t < N - 1 →
      reduceScatter N drain dat op =
        .err ("network timeout at step " ++ toString t)) ∧
    (∀ (N : Nat) (vs : List Int) (d d' : Nat → Bool),
      allGather N d vs = allGather N d' vs) ∧
    (∀ (N : Nat) (dat : List (List Int)) (op : ReduceOp) (d d' : Nat → Bool),
      reduceScatterSimple N d dat op = reduceScatterSimple N d' dat op) := by
  refine ⟨?_, ?_, fun _ _ _ _ => rfl, fun _ _ _ _ _ => rfl⟩
  · intro N vs op drain t hN hlen hpre hfail
    constructor
    · intro ht
      unfold ringAllReduce
      rw [if_neg (by simp [hlen])]
      rw [phase1_first_fail N op drain t (N - 1) 0 vs ht
        (by rw [Nat.zero_add]; exact hfail)
        (fun j hj => by rw [Nat.zero_add]; exact hpre j hj)]
      rw [Nat.zero_add]
      rfl
    · intro ht1 ht2
      unfold ringAllReduce
      rw [if_neg (by simp [hlen])]
      rw [phase1_ok_upto N op drain (N - 1) 0 vs
        (fun j hj => by rw [Nat.zero_add]; exact hpre j (by omega))]
      simp only [gbind]
      rw [phase2_first_fail N drain (t - (N - 1)) (N - 1) 0 (N - 1) _ (by omega)
        (by rw [show N - 1 + (t - (N - 1)) = t from by omega]; exact hfail)
        (fun j hj => hpre _ (by omega))]
      rw [Nat.zero_add]
  · intro N dat op K drain t hN hlen hrows hpre hfail ht
    have h0 : 0 < dat.length := by omega
    unfold reduceScatter
    rw [if_neg (by simp [hlen]), goIdx_ok dat 0 h0]
    simp only [gbind]
    have hrow0 : (dat.get ⟨0, h0⟩).length = K := hrows _ (List.get_mem dat 0 h0)
    rw [hrow0,
      rsCheck_none K dat (N - 1) 1
        (fun j hj1 hj2 => hrows _ (getD_mem _ _ _ (by omega)))]
    rw [rsLoop_first_fail N op K drain t (N - 1) 0 dat ht
      (by rw [Nat.zero_add]; exact hfail)
      (fun j hj => by rw [Nat.zero_add]; exact hpre j hj)]
    rw [Nat.zero_add]

/-- C5 witness: the amended theorem applied with a drain oracle whose first
failure is at call 1 — a mid-schedule timeout in each collective, plus the
all-gather phase of a 2-node ring. -/
theorem C5_timeout_amended_witness :
    ringAllReduce 3 (fun k => k != 1) [1, 2, 3] .SUM =
      .err ("network timeout at step 1") ∧
    ringAllReduce 2 (fun k => k != 1) [1, 2] .SUM =
      .err ("network timeout in allgather step 0") ∧
    reduceScatter 3 (fun k => k != 1) [[1], [2], [3]] .SUM =
      .err ("network timeout at step 1") := by
  refine ⟨?_, ?_, ?_⟩
  · exact (C5_timeout_amended.1 3 [1, 2, 3] .SUM (fun k => k != 1) 1 (by norm_num) rfl
      (by decide) rfl).1 (by norm_num)
  · exact (C5_timeout_amended.1 2 [1, 2] .SUM (fun k => k != 1) 1 (by norm_num) rfl
      (by decide) rfl).2 (by norm_num) (by norm_num)
  · exact C5_timeout_amended.2.1 3 [[1], [2], [3]] .SUM 1 (fun k => k != 1) 1
      (by norm_num) rfl (by decide) (by decide) rfl (by norm_num)

/-! ## C10 -/

/-- C10: `ReduceScatter` only validates that all rows have equal length; when
that common length `K` is smaller than the node count `N` (and no step times
out), the final extraction `initialData[nodeID][nodeID]` reads index `K` of a
length-`K` row — an out-of-range panic, not a returned error value. -/
theorem C10_reduce_scatter_oob (N K : Nat) (dat : List (List Int)) (op : ReduceOp)
    (hN : 1 ≤ N) (hlen : dat.length = N) (hrows : ∀ row ∈ dat, row.length = K)
    (hK : K < N) :
    reduceScatter N (fun _ => true) dat op = .panic := by
  have h0 : 0 < dat.length := by omega
  unfold reduceScatter
  rw [if_neg (by simp [hlen]), goIdx_ok dat 0 h0]
  simp only [gbind]
  have hrow0 : (dat.get ⟨0, h0⟩).length = K := hrows _ (List.get_mem dat 0 h0)
  rw [hrow0,
    rsCheck_none K dat (N - 1) 1
      (fun j hj1 hj2 => hrows _ (getD_mem _ _ _ (by omega)))]
  obtain ⟨final, hf, hfl, hfr⟩ := rsLoop_ok N op K (N - 1) 0 dat hlen hrows
  rw [hf]
  simp only [gbind]
  apply rsExtract_panic
  refine ⟨K, by simp [List.mem_range, hK], by omega, ?_⟩
  have : (final.getD K []).length = K := hfr _ (getD_mem _ _ _ (by omega))
  omega

/-- C10 witness: a 3-node reduce-scatter whose rows have length 2 panics. -/
theorem C10_reduce_scatter_oob_witness :
    reduceScatter 3 (fun _ => true) [[1, 2], [3, 4], [5, 6]] .SUM = .panic := by
  exact C10_reduce_scatter_oob 3 2 [[1, 2], [3, 4], [5, 6]] .SUM (by norm_num) rfl
    (by decide) (by norm_num)

/-! ## Inter-rank queue lemmas (shared by C7 and C8) -/

theorem deliverMsg_queue (q : InterRankControlQ) (msg : InterRankMessage) :
    (deliverMsg q msg).messageQueue = q.messageQueue := by
  unfold deliverMsg
  split <;> rfl

theorem deliverMsg_bandwidth (q : InterRankControlQ) (msg : InterRankMessage) :
    (deliverMsg q msg).bandwidth = q.bandwidth := by
  unfold deliverMsg
  split <;> rfl

theorem cycleLoop_single (q : InterRankControlQ) (msg : InterRankMessage)
    (hbw : 0 < q.bandwidth) (hfit : (msg.data.length : Int) ≤ q.bandwidth) :
    cycleLoop q [msg] 0 = (deliverMsg q msg, 1) := by
  unfold cycleLoop
  rw [if_pos hbw, if_pos (by simpa using hfit)]
  rfl

theorem cycleLoop_count :
    ∀ (msgs : List InterRankMessage) (q : InterRankControlQ) (bp : Int),
      (cycleLoop q msgs bp).2 = drainCount q.bandwidth bp msgs := by
  intro msgs
  induction msgs with
  | nil => intro q bp; rfl
  | cons m rest ih =>
    intro q bp
    simp only [cycleLoop, drainCount]
    by_cases h1 : bp < q.bandwidth
    · by_cases h2 : bp + (m.data.length : Int) ≤ q.bandwidth
      · rw [if_pos h1, if_pos h2, if_pos ⟨h1, h2⟩]
        show (cycleLoop (deliverMsg q m) rest _).2 + 1 = _
        rw [ih, deliverMsg_bandwidth]
      · rw [if_pos h1, if_neg h2, if_neg (by tauto)]
    · rw [if_neg h1, if_neg (by tauto)]

theorem cycleLoop_none (q : InterRankControlQ) (msgs : List InterRankMessage)
    (h : ∀ m ∈ msgs, q.bandwidth < (m.data.length : Int)) :
    cycleLoop q msgs 0 = (q, 0) := by
  cases msgs with
  | nil => rfl
  | cons m rest =>
    simp only [cycleLoop]
    by_cases h1 : (0 : Int) < q.bandwidth
    · rw [if_pos h1, if_neg (by have := h m (List.mem_cons_self m rest); omega)]
    · rw [if_neg h1]

/-! ## C7 -/

/-- C7: when one `Cycle` delivers a broadcast enqueued from source rank `r0`
(it is in the queue and its size fits the per-cycle bandwidth), the message is
appended to the `(ch, rank)` bucket of EVERY channel `ch` and every rank
`rank ≠ r0`, and to no bucket with `rank = r0`; afterwards the FIFO is empty.
So exactly `num_channels * (num_ranks - 1)` buckets each gain one message. -/
theorem C7_broadcast_delivery (q : InterRankControlQ) (msg : InterRankMessage)
    (hq : q.messageQueue = [msg]) (hdst : msg.destinationRank = -1)
    (hsrc0 : 0 ≤ msg.sourceRank) (hsrc1 : msg.sourceRank < q.numRanks)
    (hbw : 0 < q.bandwidth) (hfit : (msg.data.length : Int) ≤ q.bandwidth) :
    (irqCycle q).messageQueue = [] ∧
    (∀ ch r : Int, 0 ≤ ch → ch < q.numChannels → 0 ≤ r → r < q.numRanks →
      (irqCycle q).pending ch r =
        if r = msg.sourceRank then q.pending ch r else q.pending ch r ++ [msg]) := by
  have hsingle := cycleLoop_single
    { q with messageQueue := [msg], cycles := q.cycles + 1 } msg hbw hfit
  have hstep : irqCycle q =
      { deliverMsg { q with messageQueue := [msg], cycles := q.cycles + 1 } msg with
          messageQueue := ([msg] : List InterRankMessage).drop 1 } := by
    show { (cycleLoop { q with cycles := q.cycles + 1 } q.messageQueue 0).1 with
        messageQueue := q.messageQueue.drop
          (cycleLoop { q with cycles := q.cycles + 1 } q.messageQueue 0).2 } = _
    rw [hq]
    rw [hsingle]
  constructor
  · rw [hstep]
    rfl
  · intro ch r hch0 hch1 hr0 hr1
    rw [hstep]
    show (deliverMsg { q with messageQueue := [msg], cycles := q.cycles + 1 } msg).pending
      ch r = _
    unfold deliverMsg
    rw [if_pos hdst]
    show (if 0 ≤ ch ∧ ch < q.numChannels ∧ 0 ≤ r ∧ r < q.numRanks ∧ r ≠ msg.sourceRank
        then q.pending ch r ++ [msg] else q.pending ch r) = _
    by_cases hr : r = msg.sourceRank
    · rw [if_neg (by tauto), if_pos hr]
    · rw [if_pos ⟨hch0, hch1, hr0, hr1, hr⟩, if_neg hr]

/-- C7 witness: the spec's scenario 6 — a 2-channel, 4-rank queue with one
50-byte broadcast from rank 0 and bandwidth 128.  After one cycle, bucket
(0, 1) gained the message, bucket (1, 0) did not, and the FIFO is empty. -/
theorem C7_broadcast_delivery_witness :
    (irqCycle
      { numChannels := 2, numRanks := 4, busWidth := 64, bandwidth := 128,
        bufferSize := 128,
        messageQueue := [{ sourceRank := 0, destinationRank := -1,
                           data := List.replicate 50 7, timestamp := 0,
                           messageID := 0 }],
        pending := fun _ _ => [], totalMessages := 1, totalBroadcasts := 1,
        totalBytesTransferred := 50, cycles := 0, messageIDCounter := 1 }).pending 0 1 =
      [{ sourceRank := 0, destinationRank := -1,
         data := List.replicate 50 7, timestamp := 0, messageID := 0 }] ∧
    (irqCycle
      { numChannels := 2, numRanks := 4, busWidth := 64, bandwidth := 128,
        bufferSize := 128,
        messageQueue := [{ sourceRank := 0, destinationRank := -1,
                           data := List.replicate 50 7, timestamp := 0,
                           messageID := 0 }],
        pending := fun _ _ => [], totalMessages := 1, totalBroadcasts := 1,
        totalBytesTransferred := 50, cycles := 0, messageIDCounter := 1 }).pending 1 0 =
      [] := by
  have h := C7_broadcast_delivery
    { numChannels := 2, numRanks := 4, busWidth := 64, bandwidth := 128,
      bufferSize := 128,
      messageQueue := [{ sourceRank := 0, destinationRank := -1,
                         data := List.replicate 50 7, timestamp := 0,
                         messageID := 0 }],
      pending := fun _ _ => [], totalMessages := 1, totalBroadcasts := 1,
      totalBytesTransferred := 50, cycles := 0, messageIDCounter := 1 }
    { sourceRank := 0, destinationRank := -1,
      data := List.replicate 50 7, timestamp := 0, messageID := 0 }
    rfl rfl (by norm_num) (by norm_num) (by norm_num) (by simp)
  constructor
  · have h1 := h.2 0 1 (by norm_num) (by norm_num) (by norm_num) (by norm_num)
    simpa using h1
  · have h2 := h.2 1 0 (by norm_num) (by norm_num) (by norm_num) (by norm_num)
    simpa using h2

/-! ## C8 -/

/-- C8 counterexample: bandwidth 10, FIFO = [10-byte message, 0-byte
message].  The cycle delivers the head (exhausting the budget exactly) and
stops, although the 0-byte follower DOES fit in the remaining budget
(10 + 0 ≤ 10): the loop guard requires `bytes_processed < bandwidth` before
even looking at the next message.  The claim ("delivers each message whose
size fits in the remaining budget, stops at the first that does not fit")
would deliver both and leave the FIFO empty. -/
theorem C8_counterexample :
    (irqCycle
      { numChannels := 1, numRanks := 1, busWidth := 10, bandwidth := 10,
        bufferSize := 128,
        messageQueue :=
          [{ sourceRank := 0, destinationRank := -1, data := List.replicate 10 0,
             timestamp := 0, messageID := 0 },
           { sourceRank := 0, destinationRank := -1, data := [],
             timestamp := 0, messageID := 1 }],
        pending := fun _ _ => [], totalMessages := 2, totalBroadcasts := 2,
        totalBytesTransferred := 10, cycles := 0, messageIDCounter := 2 }).messageQueue =
      [{ sourceRank := 0, destinationRank := -1, data := [],
         timestamp := 0, messageID := 1 }] ∧
    (10 : Int) + ((([] : List Nat)).length : Int) ≤ 10 := by
  exact ⟨rfl, by norm_num⟩

/-- C8 (amended): one `Cycle` delivers the greedy prefix of the FIFO — walk
from the head and deliver a message while `bytes_processed` is still
strictly below the bandwidth AND the message fits entirely in the remaining
budget, stopping otherwise — and leaves the remaining suffix unchanged and
unfragmented (`drop`).  In particular, when every queued message is strictly
larger than the per-cycle bandwidth, the cycle delivers nothing: the FIFO and
all pending buckets are unchanged. -/
theorem C8_cycle_amended (q : InterRankControlQ) :
    (irqCycle q).messageQueue =
      q.messageQueue.drop (drainCount q.bandwidth 0 q.messageQueue) ∧
    ((∀ m ∈ q.messageQueue, q.bandwidth < (m.data.length : Int)) →
      (irqCycle q).messageQueue = q.messageQueue ∧ (irqCycle q).pending = q.pending) := by
  constructor
  · show q.messageQueue.drop
      (cycleLoop { q with cycles := q.cycles + 1 } q.messageQueue 0).2 = _
    rw [cycleLoop_count]
  · intro h
    have hz := cycleLoop_none { q with cycles := q.cycles + 1 } q.messageQueue h
    constructor
    · show q.messageQueue.drop
        (cycleLoop { q with cycles := q.cycles + 1 } q.messageQueue 0).2 = _
      rw [hz]
      exact List.drop_zero _
    · show (cycleLoop { q with cycles := q.cycles + 1 } q.messageQueue 0).1.pending = _
      rw [hz]

/-- C8 witness: a queue holding a single 11-byte message with bandwidth 10
(no message fits) is unchanged by one cycle. -/
theorem C8_cycle_amended_witness :
    (irqCycle
      { numChannels := 1, numRanks := 1, busWidth := 10, bandwidth := 10,
        bufferSize := 128,
        messageQueue := [{ sourceRank := 0, destinationRank := -1,
                           data := List.replicate 11 0, timestamp := 0,
                           messageID := 0 }],
        pending := fun _ _ => [], totalMessages := 1, totalBroadcasts := 1,
        totalBytesTransferred := 11, cycles := 0, messageIDCounter := 1 }).messageQueue =
      [{ sourceRank := 0, destinationRank := -1,
         data := List.replicate 11 0, timestamp := 0, messageID := 0 }] := by
  exact ((C8_cycle_amended _).2 (by intro m hm; simp at hm; subst hm; simp)).1

/-! ## C9 -/

theorem lor_disjoint (k a b : Nat) (h : a < 2 ^ k) :
    a ||| b * 2 ^ k = a + b * 2 ^ k := by
  apply Nat.eq_of_testBit_eq
  intro j
  have hrw : a + b * 2 ^ k = 2 ^ k * b + a := by ring
  rw [Nat.testBit_lor, hrw, Nat.testBit_mul_pow_two_add b h j, ← Nat.shiftLeft_eq,
    Nat.testBit_shiftLeft]
  by_cases hj : j < k
  · rw [if_pos hj]
    simp [Nat.not_le.mpr hj]
  · rw [if_neg hj]
    have ha : a.testBit j = false :=
      Nat.testBit_lt_two_pow
        (lt_of_lt_of_le h (Nat.pow_le_pow_right (by norm_num) (le_of_not_lt hj)))
    simp [ha, Nat.le_of_not_lt hj]

theorem lor_byte_step (acc b k : Nat) (hacc : acc < 2 ^ k) :
    acc ||| b <<< k = acc + b * 2 ^ k := by
  rw [Nat.shiftLeft_eq]
  exact lor_disjoint k acc b hacc

/-- C9: decoding the 8-byte little-endian encoding of any 64-bit signed
integer gives the integer back, negative and extreme values included. -/
theorem C9_decode_encode_roundtrip (v : Int) (h1 : -(2 ^ 63) ≤ v) (h2 : v < 2 ^ 63) :
    decodeInt64 (encodeInt64 v) = v := by
  have hbyte : ∀ x : Int, (x % 256).toNat < 256 := fun x => by
    have ha := Int.emod_nonneg x (by norm_num : (256 : Int) ≠ 0)
    have hb := Int.emod_lt_of_pos x (by norm_num : (0 : Int) < 256)
    omega
  have hcast : ∀ x : Int, (((x % 256).toNat : Int)) = x % 256 := fun x =>
    Int.toNat_of_nonneg (Int.emod_nonneg x (by norm_num))
  unfold encodeInt64 decodeInt64
  simp only [List.range_succ, List.range_zero, List.map_append, List.map_cons, List.map_nil,
    List.nil_append, List.cons_append, List.foldl_append, List.foldl_cons, List.foldl_nil,
    List.length_append, List.length_cons, List.length_nil]
  norm_num
  set c0 : Nat := (v % 256).toNat with hc0
  set c1 : Nat := (v / 256 % 256).toNat with hc1
  set c2 : Nat := (v / 65536 % 256).toNat with hc2
  set c3 : Nat := (v / 16777216 % 256).toNat with hc3
  set c4 : Nat := (v / 4294967296 % 256).toNat with hc4
  set c5 : Nat := (v / 1099511627776 % 256).toNat with hc5
  set c6 : Nat := (v / 281474976710656 % 256).toNat with hc6
  set c7 : Nat := (v / 72057594037927936 % 256).toNat with hc7
  have hl0 : c0 < 256 := by rw [hc0]; exact hbyte _
  have hl1 : c1 < 256 := by rw [hc1]; exact hbyte _
  have hl2 : c2 < 256 := by rw [hc2]; exact hbyte _
  have hl3 : c3 < 256 := by rw [hc3]; exact hbyte _
  have hl4 : c4 < 256 := by rw [hc4]; exact hbyte _
  have hl5 : c5 < 256 := by rw [hc5]; exact hbyte _
  have hl6 : c6 < 256 := by rw [hc6]; exact hbyte _
  have hl7 : c7 < 256 := by rw [hc7]; exact hbyte _
  rw [lor_byte_step c0 c1 8 (by norm_num; omega),
    lor_byte_step _ c2 16 (by norm_num; omega),
    lor_byte_step _ c3 24 (by norm_num; omega),
    lor_byte_step _ c4 32 (by norm_num; omega),
    lor_byte_step _ c5 40 (by norm_num; omega),
    lor_byte_step _ c6 48 (by norm_num; omega),
    lor_byte_step _ c7 56 (by norm_num; omega)]
  have e0 : (c0 : Int) = v % 256 := by rw [hc0]; exact hcast v
  have e1 : (c1 : Int) = (v / 256) % 256 := by rw [hc1]; exact hcast _
  have e2 : (c2 : Int) = (v / 65536) % 256 := by rw [hc2]; exact hcast _
  have e3 : (c3 : Int) = (v / 16777216) % 256 := by rw [hc3]; exact hcast _
  have e4 : (c4 : Int) = (v / 4294967296) % 256 := by rw [hc4]; exact hcast _
  have e5 : (c5 : Int) = (v / 1099511627776) % 256 := by rw [hc5]; exact hcast _
  have e6 : (c6 : Int) = (v / 281474976710656) % 256 := by rw [hc6]; exact hcast _
  have e7 : (c7 : Int) = (v / 72057594037927936) % 256 := by rw [hc7]; exact hcast _
  unfold toInt64
  norm_num at h1 h2 ⊢
  split_ifs with hs
  · omega
  · omega

/-- C9 witness: the roundtrip theorem applied at the most negative int64. -/
theorem C9_decode_encode_roundtrip_witness :
    decodeInt64 (encodeInt64 (-(2 ^ 63))) = -(2 ^ 63) :=
  C9_decode_encode_roundtrip (-(2 ^ 63)) (by norm_num) (by norm_num)

/-! ## C6 -/

theorem prevIdx_zero (N : Nat) (hN : 1 ≤ N) : prevIdx N 0 = N - 1 := by
  unfold prevIdx
  have h : 0 + N - 1 = N - 1 := by omega
  rw [h]
  exact Nat.mod_eq_of_lt (by omega)

theorem prevIdx_succ (N i : Nat) (h1 : 1 ≤ i) (h2 : i < N) : prevIdx N i = i - 1 := by
  unfold prevIdx
  have h : i + N - 1 = N + (i - 1) := by omega
  rw [h, Nat.add_mod_left]
  exact Nat.mod_eq_of_lt (by omega)

theorem prevIdx_lt (N i : Nat) (hN : 1 ≤ N) : prevIdx N i < N :=
  Nat.mod_lt _ (by omega)

theorem p1Fold_succ (N : Nat) (op : ReduceOp) (v : List Int) (j : Nat) :
    p1Fold N op v (j + 1) = p1upd N op (p1Fold N op v j) j := by
  unfold p1Fold
  rw [List.range_succ, List.foldl_append]
  rfl

theorem p1Fold_length (N : Nat) (op : ReduceOp) (v : List Int) :
    ∀ j, (p1Fold N op v j).length = v.length := by
  intro j
  induction j with
  | zero => rfl
  | succ j ih =>
    rw [p1Fold_succ]
    unfold p1upd
    rw [List.length_set]
    exact ih

theorem phase1Step_length (N : Nat) (op : ReduceOp) (v : List Int) :
    (phase1Step N op v).length = v.length := p1Fold_length N op v N

theorem p1Fold_stable_ge (N : Nat) (op : ReduceOp) (v : List Int) :
    ∀ j i, j ≤ i → (p1Fold N op v j).getD i 0 = v.getD i 0 := by
  intro j
  induction j with
  | zero => intro i _; rfl
  | succ j ih =>
    intro i hji
    rw [p1Fold_succ]
    unfold p1upd
    rw [getD_set_ite, if_neg (by rintro ⟨rfl, -⟩; omega)]
    exact ih i (by omega)

theorem p1Fold_stable_lt (N : Nat) (op : ReduceOp) (v : List Int) :
    ∀ j j' i, i < j → j ≤ j' → (p1Fold N op v j').getD i 0 = (p1Fold N op v j).getD i 0 := by
  intro j j' i hij hjj'
  induction j', hjj' using Nat.le_induction with
  | base => rfl
  | succ j' hjj' ih =>
    rw [p1Fold_succ]
    unfold p1upd
    rw [getD_set_ite, if_neg (by rintro ⟨rfl, -⟩; omega)]
    exact ih

theorem phase1Step_zero (N : Nat) (op : ReduceOp) (v : List Int)
    (hN : 1 ≤ N) (hv : v.length = N) :
    (phase1Step N op v).getD 0 0 = applyReduce op (v.getD 0 0) (v.getD (N - 1) 0) := by
  unfold phase1Step
  rw [p1Fold_stable_lt N op v 1 N 0 (by omega) (by omega),
    show (1 : Nat) = 0 + 1 from rfl, p1Fold_succ]
  unfold p1upd
  rw [getD_set_ite, if_pos ⟨rfl, by simpa [p1Fold] using by omega⟩, prevIdx_zero N hN]
  rfl

theorem phase1Step_succ (N : Nat) (op : ReduceOp) (v : List Int) (i : Nat)
    (hv : v.length = N) (h1 : 1 ≤ i) (h2 : i < N) :
    (phase1Step N op v).getD i 0 =
      applyReduce op (v.getD i 0) ((phase1Step N op v).getD (i - 1) 0) := by
  unfold phase1Step
  rw [p1Fold_stable_lt N op v (i + 1) N i (by omega) (by omega), p1Fold_succ]
  unfold p1upd
  rw [getD_set_ite, if_pos ⟨rfl, by rw [p1Fold_length]; omega⟩,
    p1Fold_stable_ge N op v i i (le_refl i), prevIdx_succ N i h1 h2,
    p1Fold_stable_lt N op v i N (i - 1) (by omega) (by omega)]

theorem applyReduce_max (a b : Int) : applyReduce .MAX a b = max a b := by
  show (if a > b then a else b) = max a b
  by_cases h : a > b
  · rw [if_pos h, max_eq_left h.le]
  · rw [if_neg h, max_eq_right (not_lt.mp h)]

theorem applyReduce_min (a b : Int) : applyReduce .MIN a b = min a b := by
  show (if a < b then a else b) = min a b
  by_cases h : a < b
  · rw [if_pos h, min_eq_left h.le]
  · rw [if_neg h, min_eq_right (not_lt.mp h)]

/-! Phase-1 structural lemmas for MAX. -/

theorem p1max_le (N : Nat) (v : List Int) (B : Int) (hN : 1 ≤ N) (hv : v.length = N)
    (hB : ∀ k, k < N → v.getD k 0 ≤ B) :
    ∀ i, i < N → (phase1Step N .MAX v).getD i 0 ≤ B := by
  intro i
  induction i with
  | zero =>
    intro h0
    rw [phase1Step_zero N _ v hN hv, applyReduce_max]
    exact max_le (hB 0 h0) (hB (N - 1) (by omega))
  | succ i ih =>
    intro hi
    rw [phase1Step_succ N _ v (i + 1) hv (by omega) hi, applyReduce_max]
    exact max_le (hB _ hi) (by simpa using ih (by omega))

theorem p1max_ge (N : Nat) (v : List Int) (hN : 1 ≤ N) (hv : v.length = N) :
    ∀ i, i < N → ∀ j, j ≤ i → v.getD j 0 ≤ (phase1Step N .MAX v).getD i 0 := by
  intro i
  induction i with
  | zero =>
    intro h0 j hj
    have hj0 : j = 0 := by omega
    subst hj0
    rw [phase1Step_zero N _ v hN hv, applyReduce_max]
    exact le_max_left _ _
  | succ i ih =>
    intro hi j hj
    rw [phase1Step_succ N _ v (i + 1) hv (by omega) hi, applyReduce_max]
    rcases Nat.lt_or_ge j (i + 1) with hj' | hj'
    · exact le_trans (ih (by omega) j (by omega)) (by simpa using le_max_right _ _)
    · have : j = i + 1 := by omega
      subst this
      exact le_max_left _ _

theorem p1max_absorb (N : Nat) (v : List Int) (M : Int) (hN : 1 ≤ N) (hv : v.length = N)
    (hlast : v.getD (N - 1) 0 = M) (hB : ∀ k, k < N → v.getD k 0 ≤ M) :
    ∀ i, i < N → (phase1Step N .MAX v).getD i 0 = M := by
  intro i
  induction i with
  | zero =>
    intro h0
    rw [phase1Step_zero N _ v hN hv, applyReduce_max, hlast]
    exact max_eq_right (hB 0 h0)
  | succ i ih =>
    intro hi
    rw [phase1Step_succ N _ v (i + 1) hv (by omega) hi, applyReduce_max]
    rw [show (i + 1 - 1 : Nat) = i from rfl, ih (by omega)]
    exact max_eq_right (hB _ hi)

/-! Phase-1 structural lemmas for MIN (order duals). -/

theorem p1min_ge (N : Nat) (v : List Int) (B : Int) (hN : 1 ≤ N) (hv : v.length = N)
    (hB : ∀ k, k < N → B ≤ v.getD k 0) :
    ∀ i, i < N → B ≤ (phase1Step N .MIN v).getD i 0 := by
  intro i
  induction i with
  | zero =>
    intro h0
    rw [phase1Step_zero N _ v hN hv, applyReduce_min]
    exact le_min (hB 0 h0) (hB (N - 1) (by omega))
  | succ i ih =>
    intro hi
    rw [phase1Step_succ N _ v (i + 1) hv (by omega) hi, applyReduce_min]
    exact le_min (hB _ hi) (by simpa using ih (by omega))

theorem p1min_le (N : Nat) (v : List Int) (hN : 1 ≤ N) (hv : v.length = N) :
    ∀ i, i < N → ∀ j, j ≤ i → (phase1Step N .MIN v).getD i 0 ≤ v.getD j 0 := by
  intro i
  induction i with
  | zero =>
    intro h0 j hj
    have hj0 : j = 0 := by omega
    subst hj0
    rw [phase1Step_zero N _ v hN hv, applyReduce_min]
    exact min_le_left _ _
  | succ i ih =>
    intro hi j hj
    rw [phase1Step_succ N _ v (i + 1) hv (by omega) hi, applyReduce_min]
    rcases Nat.lt_or_ge j (i + 1) with hj' | hj'
    · exact le_trans (by simpa using min_le_right _ _) (ih (by omega) j (by omega))
    · have : j = i + 1 := by omega
      subst this
      exact min_le_left _ _

theorem p1min_absorb (N : Nat) (v : List Int) (M : Int) (hN : 1 ≤ N) (hv : v.length = N)
    (hlast : v.getD (N - 1) 0 = M) (hB : ∀ k, k < N → M ≤ v.getD k 0) :
    ∀ i, i < N → (phase1Step N .MIN v).getD i 0 = M := by
  intro i
  induction i with
  | zero =>
    intro h0
    rw [phase1Step_zero N _ v hN hv, applyReduce_min, hlast]
    exact min_eq_right (hB 0 h0)
  | succ i ih =>
    intro hi
    rw [phase1Step_succ N _ v (i + 1) hv (by omega) hi, applyReduce_min]
    rw [show (i + 1 - 1 : Nat) = i from rfl, ih (by omega)]
    exact min_eq_right (hB _ hi)

/-! Iterating phase 1 and preserving the constant through phase 2. -/

theorem foldl_pres {β : Type} (P : List Int → Prop) (f : List Int → β → List Int) :
    ∀ l : List β, (∀ a b, b ∈ l → P a → P (f a b)) → ∀ a, P a → P (l.foldl f a) := by
  intro l
  induction l with
  | nil => intro _ a ha; exact ha
  | cons b rest ih =>
    intro h a ha
    exact ih (fun a' b' hb' => h a' b' (List.mem_cons_of_mem b hb'))
      (f a b) (h a b (List.mem_cons_self b rest) ha)

theorem phase2Step_allEq (N s : Nat) (M : Int) (hN : 1 ≤ N) (v : List Int)
    (hv : v.length = N) (hM : ∀ i, i < N → v.getD i 0 = M) :
    (phase2Step N s v).length = N ∧ ∀ i, i < N → (phase2Step N s v).getD i 0 = M := by
  unfold phase2Step
  refine foldl_pres
    (fun w => w.length = N ∧ ∀ i, i < N → w.getD i 0 = M)
    (p2upd N s) (List.range N) ?_ v ⟨hv, hM⟩
  rintro w i hi ⟨hwl, hwm⟩
  have hiN : i < N := List.mem_range.mp hi
  unfold p2upd
  split
  · refine ⟨by rw [List.length_set]; exact hwl, ?_⟩
    intro j hj
    rw [getD_set_ite]
    split
    · exact hwm (prevIdx N i) (prevIdx_lt N i hN)
    · exact hwm j hj
  · exact ⟨hwl, hwm⟩

theorem phase1_steps_allEq_max (N : Nat) (v : List Int) (M : Int) (hN : 2 ≤ N)
    (hv : v.length = N) (hMem : ∃ j, j < N ∧ v.getD j 0 = M)
    (hB : ∀ k, k < N → v.getD k 0 ≤ M) :
    ∀ i, i < N → ((phase1Step N .MAX)^[N - 1] v).getD i 0 = M := by
  -- step 1: after one step the last slot holds M and everything is ≤ M
  have hstep1 : ∀ (w : List Int), w.length = N → (∃ j, j < N ∧ w.getD j 0 = M) →
      (∀ k, k < N → w.getD k 0 ≤ M) →
      (phase1Step N .MAX w).length = N ∧
      (∀ k, k < N → (phase1Step N .MAX w).getD k 0 ≤ M) ∧
      (phase1Step N .MAX w).getD (N - 1) 0 = M := by
    intro w hwl ⟨j, hj, hjM⟩ hwB
    refine ⟨by rw [phase1Step_length, hwl], p1max_le N w M (by omega) hwl hwB, ?_⟩
    apply le_antisymm (p1max_le N w M (by omega) hwl hwB (N - 1) (by omega))
    calc M = w.getD j 0 := hjM.symm
      _ ≤ (phase1Step N .MAX w).getD (N - 1) 0 :=
        p1max_ge N w (by omega) hwl (N - 1) (by omega) j (by omega)
  -- step 2: a bounded vector whose last slot is M becomes constantly M
  have hstep2 : ∀ (w : List Int), w.length = N →
      (∀ k, k < N → w.getD k 0 ≤ M) → w.getD (N - 1) 0 = M →
      (phase1Step N .MAX w).length = N ∧
      (∀ i, i < N → (phase1Step N .MAX w).getD i 0 = M) := by
    intro w hwl hwB hwlast
    exact ⟨by rw [phase1Step_length, hwl],
      p1max_absorb N w M (by omega) hwl hwlast hwB⟩
  -- constantly-M vectors stay constantly M
  have hstay : ∀ (w : List Int), w.length = N → (∀ i, i < N → w.getD i 0 = M) →
      (phase1Step N .MAX w).length = N ∧
      (∀ i, i < N → (phase1Step N .MAX w).getD i 0 = M) := by
    intro w hwl hwm
    exact hstep2 w hwl (fun k hk => le_of_eq (hwm k hk)) (hwm (N - 1) (by omega))
  -- iterate
  have hiter : ∀ t (w : List Int), w.length = N → (∀ i, i < N → w.getD i 0 = M) →
      ((phase1Step N .MAX)^[t] w).length = N ∧
      (∀ i, i < N → ((phase1Step N .MAX)^[t] w).getD i 0 = M) := by
    intro t
    induction t with
    | zero => intro w hwl hwm; exact ⟨hwl, hwm⟩
    | succ t ih =>
      intro w hwl hwm
      rw [Function.iterate_succ_apply]
      obtain ⟨h1, h2⟩ := hstay w hwl hwm
      exact ih _ h1 h2
  rcases Nat.lt_or_ge N 3 with hN2 | hN3
  · -- N = 2: one step already makes everything M
    have hN2' : N = 2 := by omega
    subst hN2'
    have h0 : (phase1Step 2 .MAX v).getD 0 0 = M := by
      rw [phase1Step_zero 2 _ v (by omega) hv, applyReduce_max]
      apply le_antisymm (max_le (hB 0 (by omega)) (hB 1 (by omega)))
      obtain ⟨j, hj, hjM⟩ := hMem
      interval_cases j
      · rw [← hjM]; exact le_max_left _ _
      · rw [← hjM]; exact le_max_right _ _
    have h1 : (phase1Step 2 .MAX v).getD 1 0 = M := by
      rw [phase1Step_succ 2 _ v 1 hv (by omega) (by omega), applyReduce_max]
      rw [show (1 - 1 : Nat) = 0 from rfl, h0]
      exact max_eq_right (hB 1 (by omega))
    have hallv : ∀ i, i < 2 → (phase1Step 2 .MAX v).getD i 0 = M := by
      intro i hi
      interval_cases i
      · exact h0
      · exact h1
    have := hiter (2 - 1 - 1) (phase1Step 2 .MAX v)
      (by rw [phase1Step_length, hv]) hallv
    intro i hi
    have hrw : (2 - 1 : Nat) = (2 - 1 - 1) + 1 := rfl
    rw [hrw, Function.iterate_succ_apply]
    exact this.2 i hi
  · -- N ≥ 3: two steps make everything M, the rest preserve it
    obtain ⟨ha1, ha2, ha3⟩ := hstep1 v hv hMem hB
    obtain ⟨hb1, hb2⟩ := hstep2 (phase1Step N .MAX v) ha1 ha2 ha3
    have := hiter (N - 1 - 2) (phase1Step N .MAX (phase1Step N .MAX v)) hb1 hb2
    intro i hi
    have hrw : N - 1 = (N - 1 - 2) + 2 := by omega
    rw [hrw, Function.iterate_add_apply]
    have h2 : (phase1Step N .MAX)^[2] v =
        phase1Step N .MAX (phase1Step N .MAX v) := by
      rw [Function.iterate_succ_apply, Function.iterate_one]
    rw [h2]
    exact this.2 i hi

theorem phase1_steps_allEq_min (N : Nat) (v : List Int) (M : Int) (hN : 2 ≤ N)
    (hv : v.length = N) (hMem : ∃ j, j < N ∧ v.getD j 0 = M)
    (hB : ∀ k, k < N → M ≤ v.getD k 0) :
    ∀ i, i < N → ((phase1Step N .MIN)^[N - 1] v).getD i 0 = M := by
  have hstep1 : ∀ (w : List Int), w.length = N → (∃ j, j < N ∧ w.getD j 0 = M) →
      (∀ k, k < N → M ≤ w.getD k 0) →
      (phase1Step N .MIN w).length = N ∧
      (∀ k, k < N → M ≤ (phase1Step N .MIN w).getD k 0) ∧
      (phase1Step N .MIN w).getD (N - 1) 0 = M := by
    intro w hwl ⟨j, hj, hjM⟩ hwB
    refine ⟨by rw [phase1Step_length, hwl], p1min_ge N w M (by omega) hwl hwB, ?_⟩
    apply le_antisymm _ (p1min_ge N w M (by omega) hwl hwB (N - 1) (by omega))
    calc (phase1Step N .MIN w).getD (N - 1) 0 ≤ w.getD j 0 :=
        p1min_le N w (by omega) hwl (N - 1) (by omega) j (by omega)
      _ = M := hjM
  have hstep2 : ∀ (w : List Int), w.length = N →
      (∀ k, k < N → M ≤ w.getD k 0) → w.getD (N - 1) 0 = M →
      (phase1Step N .MIN w).length = N ∧
      (∀ i, i < N → (phase1Step N .MIN w).getD i 0 = M) := by
    intro w hwl hwB hwlast
    exact ⟨by rw [phase1Step_length, hwl],
      p1min_absorb N w M (by omega) hwl hwlast hwB⟩
  have hstay : ∀ (w : List Int), w.length = N → (∀ i, i < N → w.getD i 0 = M) →
      (phase1Step N .MIN w).length = N ∧
      (∀ i, i < N → (phase1Step N .MIN w).getD i 0 = M) := by
    intro w hwl hwm
    exact hstep2 w hwl (fun k hk => ge_of_eq (hwm k hk)) (hwm (N - 1) (by omega))
  have hiter : ∀ t (w : List Int), w.length = N → (∀ i, i < N → w.getD i 0 = M) →
      ((phase1Step N .MIN)^[t] w).length = N ∧
      (∀ i, i < N → ((phase1Step N .MIN)^[t] w).getD i 0 = M) := by
    intro t
    induction t with
    | zero => intro w hwl hwm; exact ⟨hwl, hwm⟩
    | succ t ih =>
      intro w hwl hwm
      rw [Function.iterate_succ_apply]
      obtain ⟨h1, h2⟩ := hstay w hwl hwm
      exact ih _ h1 h2
  rcases Nat.lt_or_ge N 3 with hN2 | hN3
  · have hN2' : N = 2 := by omega
    subst hN2'
    have h0 : (phase1Step 2 .MIN v).getD 0 0 = M := by
      rw [phase1Step_zero 2 _ v (by omega) hv, applyReduce_min]
      apply le_antisymm _ (le_min (hB 0 (by omega)) (hB 1 (by omega)))
      obtain ⟨j, hj, hjM⟩ := hMem
      interval_cases j
      · rw [← hjM]; exact min_le_left _ _
      · rw [← hjM]; exact min_le_right _ _
    have h1 : (phase1Step 2 .MIN v).getD 1 0 = M := by
      rw [phase1Step_succ 2 _ v 1 hv (by omega) (by omega), applyReduce_min]
      rw [show (1 - 1 : Nat) = 0 from rfl, h0]
      exact min_eq_right (hB 1 (by omega))
    have hallv : ∀ i, i < 2 → (phase1Step 2 .MIN v).getD i 0 = M := by
      intro i hi
      interval_cases i
      · exact h0
      · exact h1
    have := hiter (2 - 1 - 1) (phase1Step 2 .MIN v)
      (by rw [phase1Step_length, hv]) hallv
    intro i hi
    have hrw : (2 - 1 : Nat) = (2 - 1 - 1) + 1 := rfl
    rw [hrw, Function.iterate_succ_apply]
    exact this.2 i hi
  · obtain ⟨ha1, ha2, ha3⟩ := hstep1 v hv hMem hB
    obtain ⟨hb1, hb2⟩ := hstep2 (phase1Step N .MIN v) ha1 ha2 ha3
    have := hiter (N - 1 - 2) (phase1Step N .MIN (phase1Step N .MIN v)) hb1 hb2
    intro i hi
    have hrw : N - 1 = (N - 1 - 2) + 2 := by omega
    rw [hrw, Function.iterate_add_apply]
    have h2 : (phase1Step N .MIN)^[2] v =
        phase1Step N .MIN (phase1Step N .MIN v) := by
      rw [Function.iterate_succ_apply, Function.iterate_one]
    rw [h2]
    exact this.2 i hi

theorem phase1_true (N : Nat) (op : ReduceOp) :
    ∀ k s v, phase1 N op (fun _ => true) k s v = .ok ((phase1Step N op)^[k] v) := by
  intro k
  induction k with
  | zero => intro s v; rfl
  | succ k ih =>
    intro s v
    simp only [phase1, ih, Function.iterate_succ_apply, if_true]

theorem phase1Step_iterate_length (N : Nat) (op : ReduceOp) :
    ∀ t (v : List Int), ((phase1Step N op)^[t] v).length = v.length := by
  intro t
  induction t with
  | zero => intro v; rfl
  | succ t ih =>
    intro v
    rw [Function.iterate_succ_apply, ih, phase1Step_length]

theorem phase2_true_ok (N : Nat) (M : Int) (hN : 1 ≤ N) :
    ∀ k s c v, v.length = N → (∀ i, i < N → v.getD i 0 = M) →
      ∃ w, phase2 N (fun _ => true) k s c v = .ok w ∧ w.length = N ∧
        ∀ i, i < N → w.getD i 0 = M := by
  intro k
  induction k with
  | zero => intro s c v hv hm; exact ⟨v, rfl, hv, hm⟩
  | succ k ih =>
    intro s c v hv hm
    obtain ⟨hl, hmm⟩ := phase2Step_allEq N s M hN v hv hm
    obtain ⟨w, hw, hwl, hwm⟩ := ih (s + 1) (c + 1) (phase2Step N s v) hl hmm
    exact ⟨w, by simp only [phase2, if_true]; exact hw, hwl, hwm⟩

theorem exists_list_max : ∀ (l : List Int), l ≠ [] → ∃ M, M ∈ l ∧ ∀ y ∈ l, y ≤ M := by
  intro l
  induction l with
  | nil => intro h; exact absurd rfl h
  | cons a rest ih =>
    intro _
    by_cases hr : rest = []
    · refine ⟨a, List.mem_cons_self a rest, ?_⟩
      intro y hy
      rw [hr] at hy
      simp at hy
      omega
    · obtain ⟨M, hM1, hM2⟩ := ih hr
      refine ⟨max a M, ?_, ?_⟩
      · rcases max_choice a M with h | h <;> rw [h]
        · exact List.mem_cons_self a rest
        · exact List.mem_cons_of_mem a hM1
      · intro y hy
        rcases List.mem_cons.mp hy with rfl | hy'
        · exact le_max_left _ _
        · exact le_trans (hM2 y hy') (le_max_right _ _)

theorem exists_list_min : ∀ (l : List Int), l ≠ [] → ∃ m, m ∈ l ∧ ∀ y ∈ l, m ≤ y := by
  intro l
  induction l with
  | nil => intro h; exact absurd rfl h
  | cons a rest ih =>
    intro _
    by_cases hr : rest = []
    · refine ⟨a, List.mem_cons_self a rest, ?_⟩
      intro y hy
      rw [hr] at hy
      simp at hy
      omega
    · obtain ⟨m, hm1, hm2⟩ := ih hr
      refine ⟨min a m, ?_, ?_⟩
      · rcases min_choice a m with h | h <;> rw [h]
        · exact List.mem_cons_self a rest
        · exact List.mem_cons_of_mem a hm1
      · intro y hy
        rcases List.mem_cons.mp hy with rfl | hy'
        · exact min_le_left _ _
        · exact le_trans (min_le_right _ _) (hm2 y hy')

/-- C6: a ring all-reduce with op = MAX (resp. MIN), with no step timing out,
returns an N-vector whose every element is the global maximum (resp. minimum)
of the inputs. -/
theorem C6_ring_allreduce_max_min (N : Nat) (vs : List Int) (hN : 2 ≤ N)
    (hlen : vs.length = N) :
    (∃ M, M ∈ vs ∧ (∀ y ∈ vs, y ≤ M) ∧
      ringAllReduce N (fun _ => true) vs .MAX = .ok (List.replicate N M)) ∧
    (∃ m, m ∈ vs ∧ (∀ y ∈ vs, m ≤ y) ∧
      ringAllReduce N (fun _ => true) vs .MIN = .ok (List.replicate N m)) := by
  have hne : vs ≠ [] := by
    intro h
    rw [h] at hlen
    simp at hlen
    omega
  have hmem_getD : ∀ x : Int, x ∈ vs → ∃ j, j < N ∧ vs.getD j 0 = x := by
    intro x hx
    obtain ⟨n, hn, he⟩ := List.mem_iff_getElem.mp hx
    exact ⟨n, by omega, by rw [List.getD_eq_getElem vs 0 hn]; exact he⟩
  have hgetD_mem : ∀ j, j < N → vs.getD j 0 ∈ vs := fun j hj =>
    getD_mem vs j 0 (by omega)
  constructor
  · obtain ⟨M, hM1, hM2⟩ := exists_list_max vs hne
    refine ⟨M, hM1, hM2, ?_⟩
    have hall := phase1_steps_allEq_max N vs M hN hlen (hmem_getD M hM1)
      (fun k hk => hM2 _ (hgetD_mem k hk))
    have hilen : ((phase1Step N .MAX)^[N - 1] vs).length = N := by
      rw [phase1Step_iterate_length, hlen]
    obtain ⟨w, hw, hwl, hwm⟩ :=
      phase2_true_ok N M (by omega) (N - 1) 0 (N - 1)
        ((phase1Step N .MAX)^[N - 1] vs) hilen hall
    have hw_rep : w = List.replicate N M := by
      refine List.eq_replicate_iff.mpr ⟨hwl, ?_⟩
      intro b hb
      obtain ⟨n, hn, he⟩ := List.mem_iff_getElem.mp hb
      rw [← he, ← List.getD_eq_getElem w 0 hn]
      exact hwm n (by omega)
    unfold ringAllReduce
    rw [if_neg (by simp [hlen]), phase1_true]
    simp only [gbind]
    rw [hw]
    simp only [gbind]
    rw [hw_rep]
  · obtain ⟨m, hm1, hm2⟩ := exists_list_min vs hne
    refine ⟨m, hm1, hm2, ?_⟩
    have hall := phase1_steps_allEq_min N vs m hN hlen (hmem_getD m hm1)
      (fun k hk => hm2 _ (hgetD_mem k hk))
    have hilen : ((phase1Step N .MIN)^[N - 1] vs).length = N := by
      rw [phase1Step_iterate_length, hlen]
    obtain ⟨w, hw, hwl, hwm⟩ :=
      phase2_true_ok N m (by omega) (N - 1) 0 (N - 1)
        ((phase1Step N .MIN)^[N - 1] vs) hilen hall
    have hw_rep : w = List.replicate N m := by
      refine List.eq_replicate_iff.mpr ⟨hwl, ?_⟩
      intro b hb
      obtain ⟨n, hn, he⟩ := List.mem_iff_getElem.mp hb
      rw [← he, ← List.getD_eq_getElem w 0 hn]
      exact hwm n (by omega)
    unfold ringAllReduce
    rw [if_neg (by simp [hlen]), phase1_true]
    simp only [gbind]
    rw [hw]
    simp only [gbind]
    rw [hw_rep]

/-- C6 witness: the theorem applied at N = 4, inputs [3, 9, 2, 7]. -/
theorem C6_ring_allreduce_max_min_witness :
    ringAllReduce 4 (fun _ => true) [3, 9, 2, 7] .MAX = .ok [9, 9, 9, 9] ∧
    ringAllReduce 4 (fun _ => true) [3, 9, 2, 7] .MIN = .ok [2, 2, 2, 2] := by
  obtain ⟨⟨M, hM1, hM2, hM3⟩, ⟨m, hm1, hm2, hm3⟩⟩ :=
    C6_ring_allreduce_max_min 4 [3, 9, 2, 7] (by norm_num) rfl
  have hM : M = 9 := by
    have h9 := hM2 9 (by simp)
    simp at hM1
    omega
  have hm : m = 2 := by
    have h2 := hm2 2 (by simp)
    simp at hm1
    omega
  subst hM
  subst hm
  exact ⟨hM3.trans (by rfl), hm3.trans (by rfl)⟩
